import Mathlib

/-!
# kuma-repoter : shallow embedding and verification

This file embeds the measurement-and-reporting pipeline of the
`kuma-repoter` Go repository and proves properties of it.

The repository contains two near-duplicate implementations of the core
pipeline:

* the "main" variant — the direct command-line daemon
  (`src/unnamed/part_000`, package `main`);
* the "method" variant — the library-style daemon
  (`src/internal/method/reporter.go`, package `method`).

Both are embedded, as `main...` and `method...` definitions, because they
differ in observable behaviour (error propagation) and several claims are
about exactly that.

External effects (DNS lookup, ICMP / subprocess probes, the HTTP GET,
context cancellation) are modelled as explicit environment records
(`PingEnv`, `SendEnv`, `RetryEnv`): each field is an oracle giving the
outcome the outside world would return at that point.  Machine floating
point (`float64`) is modelled by `ℚ`; the numeric literals appearing in
the claims (2.345, 12.5, 7.00, …) are exactly representable.  Where a
statement depends on the special values `strconv.ParseFloat` can
produce (NaN, infinities), the domain `GoFloat` extends `ℚ` with them
and the parser is embedded over it as well (`parseSystemPingOutputF`).
Go `time.Duration` values are modelled as `Nat` (nanoseconds); Go `int`
as `Int`.
-/

instance {ε α : Type} [DecidableEq ε] [DecidableEq α] : DecidableEq (Except ε α) := fun x y =>
  match x, y with
  | Except.ok a, Except.ok b =>
    if h : a = b then isTrue (by rw [h]) else isFalse (fun hc => h (Except.ok.inj hc))
  | Except.error a, Except.error b =>
    if h : a = b then isTrue (by rw [h]) else isFalse (fun hc => h (Except.error.inj hc))
  | Except.ok _, Except.error _ => isFalse (fun hc => Except.noConfusion hc)
  | Except.error _, Except.ok _ => isFalse (fun hc => Except.noConfusion hc)

/-- Embedding of the Go `error` values produced by the pipeline.  Each
constructor mirrors one `fmt.Errorf` / error production site; `%w`
wrapping becomes a constructor argument. -/
inductive GoErr : Type where
  /-- `ctx.Err()` after cancellation. -/
  | ctxCanceled : GoErr
  /-- a failure of `net.LookupIP` itself (message abstracted). -/
  | lookupFail (msg : String) : GoErr
  /-- `"DNS resolution failed: %w"`. -/
  | dnsFail (inner : GoErr) : GoErr
  /-- `"no valid IP addresses found for %s"`. -/
  | noValidIPs (host : String) : GoErr
  /-- an abstract probe failure (pinger error, subprocess error, ...). -/
  | probeFail (msg : String) : GoErr
  /-- `"all ping attempts failed: %w"` (main variant only). -/
  | allPingFail (inner : GoErr) : GoErr
  /-- stands for the Go `nil` error in an (unreachable) wrap of `nil`. -/
  | nilErr : GoErr
  /-- `"could not parse ping output: %s"`. -/
  | parseFail (output : String) : GoErr
  /-- `"invalid URL: %w"` from `url.Parse` (inner message abstracted). -/
  | invalidURL (rawURL : String) : GoErr
  /-- `"HTTP request failed: %w"`. -/
  | httpReqFail (inner : GoErr) : GoErr
  /-- an abstract transport-level failure of `client.Get`. -/
  | transportFail (msg : String) : GoErr
  /-- `"unexpected status: %s"`. -/
  | badStatus (code : Nat) : GoErr
  /-- `"ping failed (attempt %d/%d): %w"`. -/
  | pingAttemptFail (attempt : Nat) (maxR : Int) (inner : GoErr) : GoErr
  /-- `"report failed (attempt %d/%d): %w"`. -/
  | reportAttemptFail (attempt : Nat) (maxR : Int) (inner : GoErr) : GoErr
deriving DecidableEq, Repr

/-- Embedding of `model.Config` / the `main` package `Config` struct.
Durations are nanosecond counts (`Nat`), Go `int` is `Int`.  The
`Logger` field (a function value used only for log output) is omitted:
logging has no bearing on any result proved here. -/
structure Config : Type where
  reportURL : String
  pingHost : String
  reportPeriod : Nat
  maxRetries : Int
  retryDelay : Nat
  pingCount : Int
  pingTimeout : Nat
  httpTimeout : Nat
  statusMessage : String
  useIPv4 : Bool
  useIPv6 : Bool
  useSystemPing : Bool

/-! ## Models of the Go standard-library string functions

The Go code uses `strings.Split`, `strings.Fields`, `strings.Contains`,
`strings.TrimSuffix` and `strconv.ParseFloat`.  They are modelled here
over `List Char` (the contents of a Go string). -/

/-- `unicode.IsSpace`, which is what `strings.Fields` uses to separate
fields: the Unicode White_Space property — `\t \n \v \f \r` space, NEL
(U+0085), NBSP (U+00A0), and the Unicode space separators U+1680,
U+2000–U+200A, U+2028, U+2029, U+202F, U+205F, U+3000. -/
def isGoSpace (c : Char) : Bool :=
  c.toNat = 9 || c.toNat = 10 || c.toNat = 11 || c.toNat = 12 ||
  c.toNat = 13 || c.toNat = 32 || c.toNat = 133 || c.toNat = 160 ||
  c.toNat = 0x1680 || (0x2000 ≤ c.toNat && c.toNat ≤ 0x200A) ||
  c.toNat = 0x2028 || c.toNat = 0x2029 || c.toNat = 0x202F ||
  c.toNat = 0x205F || c.toNat = 0x3000

/-- Split a character list at every character satisfying `p`, keeping
empty segments: the semantics of Go `strings.Split` with a one-character
separator (generalised to a predicate).  The result is always
non-empty. -/
def splitP (p : Char → Bool) : List Char → List (List Char)
  | [] => [[]]
  | c :: cs =>
    if p c then [] :: splitP p cs
    else
      match splitP p cs with
      | [] => [[c]]
      | t :: ts => (c :: t) :: ts

/-- Go `strings.Fields`: split on whitespace runs, dropping empty
segments (splitting at every single space char and filtering empties is
equivalent). -/
def fieldsList (cs : List Char) : List (List Char) :=
  (splitP isGoSpace cs).filter (fun l => decide (l ≠ []))

/-- Does `cs` start with `pre`? (Go `strings.HasPrefix` on contents.) -/
def startsWithL : List Char → List Char → Bool
  | [], _ => true
  | _ :: _, [] => false
  | a :: as, b :: bs => a = b && startsWithL as bs

/-- Go `strings.Contains sub cs`: `sub` occurs contiguously in `cs`. -/
def containsL (sub : List Char) : List Char → Bool
  | [] => startsWithL sub []
  | c :: cs => startsWithL sub (c :: cs) || containsL sub cs

/-- Go `strings.TrimSuffix`: drop `suf` from the end of `cs` when
present, otherwise return `cs` unchanged. -/
def trimSuffixL (cs suf : List Char) : List Char :=
  if suf <:+ cs then cs.take (cs.length - suf.length) else cs

/-- Numeric value of a list of decimal digit characters (most
significant first). -/
def digitsVal (ds : List Char) : Nat :=
  ds.foldl (fun a c => a * 10 + (c.toNat - 48)) 0

/-- Consume an optional leading sign, returning whether it was `-` and
the remaining characters. -/
def parseSign (cs : List Char) : Bool × List Char :=
  match cs with
  | [] => (false, [])
  | c :: r => if c = '-' then (true, r) else if c = '+' then (false, r) else (false, c :: r)

/-- Consume an optional `.`-prefixed fraction: the fraction digits and
the remaining characters. -/
def splitFrac (cs : List Char) : List Char × List Char :=
  match cs with
  | [] => ([], [])
  | c :: r =>
    if c = '.' then (r.takeWhile Char.isDigit, r.dropWhile Char.isDigit) else ([], c :: r)

/-- Model of `strconv.ParseFloat` (64-bit) on its plain decimal forms:
`[+-] digits [. digits] [eE [+-] digits]` with at least one mantissa
digit.  The result is the exact rational value of the literal; `float64`
rounding is abstracted away (every numeric comparison in this file is
between literals that round identically).  This fragment cannot express
the special values `ParseFloat` also recognises (`NaN` and signed
`Inf`/`Infinity`, case-insensitively) — those are modelled by
`parseFloatFull` below over the extended domain `GoFloat`, and the
claims that quantify over every input text are settled against that
full model.  Still not modelled: hex floats, underscore-separated
literals (both parse failures here) and the out-of-range path (`1e999`:
`ErrRange`, a failure in Go, an exact huge rational here); without a
`-` sign those forms denote only non-negative values or failures, so
the gap cannot hide a sign violation. -/
def parseFloatL (cs : List Char) : Option ℚ :=
  let sgn := parseSign cs
  let ip := sgn.2.takeWhile Char.isDigit
  let frac := splitFrac (sgn.2.dropWhile Char.isDigit)
  let fp := frac.1
  if ip = [] ∧ fp = [] then none
  else
    let m : Nat := digitsVal ip * 10 ^ fp.length + digitsVal fp
    let den : Nat := 10 ^ fp.length
    let sm : Int := if sgn.1 then -(m : Int) else (m : Int)
    match frac.2 with
    | [] => some (mkRat sm den)
    | e :: r =>
      if e = 'e' ∨ e = 'E' then
        let esgn := parseSign r
        let ed := esgn.2.takeWhile Char.isDigit
        let r₂ := esgn.2.dropWhile Char.isDigit
        if ed = [] ∨ r₂ ≠ [] then none
        else
          let ev := digitsVal ed
          some (if esgn.1 then mkRat sm (den * 10 ^ ev)
                else mkRat (sm * ((10 ^ ev : Nat) : Int)) den)
      else none

/-! ## `parseSystemPingOutput`

Direct translation of the parser (identical in both variants): split the
output on `'\n'`, scan lines from the last upward; on each line first
try the slash-delimited `round-trip`/`rtt` summary format, then the
`Average = Nms` format; the first token that parses wins; if nothing
parses, fail with the "could not parse ping output" error. -/

/-- Inner loop of the `round-trip`/`rtt` branch: walk the whitespace
fields of the line; for each field containing `/`, split on `/` and, if
at least 4 components, try to parse component 1 (the average); first
success wins, failures fall through to later fields. -/
def slashScan : List (List Char) → Option ℚ
  | [] => none
  | part :: rest =>
    if containsL ['/'] part then
      if 4 ≤ (splitP (fun c => c = '/') part).length then
        match parseFloatL ((splitP (fun c => c = '/') part).getD 1 []) with
        | some v => some v
        | none => slashScan rest
      else slashScan rest
    else slashScan rest

/-- The `round-trip min/avg/max/stddev = a/b/c/d ms` branch: only lines
containing `round-trip` or `rtt` are considered. -/
def tryRoundTripLine (line : List Char) : Option ℚ :=
  if containsL "round-trip".data line || containsL "rtt".data line then
    slashScan (fieldsList line)
  else none

/-- Inner loop of the `Average =` branch: walk fields with their index
`i`; at a field equal to `Average` with `i+2 < len`, trim an `ms` suffix
from field `i+2` and try to parse it; first success wins. -/
def avgScan (parts : List (List Char)) : List (List Char) → Nat → Option ℚ
  | [], _ => none
  | p :: rest, i =>
    if p = "Average".data ∧ i + 2 < parts.length then
      match parseFloatL (trimSuffixL (parts.getD (i + 2) []) "ms".data) with
      | some v => some v
      | none => avgScan parts rest (i + 1)
    else avgScan parts rest (i + 1)

/-- The `Minimum = Xms, Maximum = Yms, Average = Zms` branch: only lines
containing `Average =` are considered. -/
def tryAverageLine (line : List Char) : Option ℚ :=
  if containsL "Average =".data line then
    avgScan (fieldsList line) (fieldsList line) 0
  else none

/-- The backward line scan: `scanLines lines n` processes indices
`n-1, n-2, …, 0`, on each line trying the round-trip branch and then the
`Average =` branch, mirroring `for i := len(lines)-1; i >= 0; i--`. -/
def scanLines (lines : List (List Char)) : Nat → Option ℚ
  | 0 => none
  | n + 1 =>
    let line := lines.getD n []
    match tryRoundTripLine line with
    | some v => some v
    | none =>
      match tryAverageLine line with
      | some v => some v
      | none => scanLines lines n

/-- The list of lines the parser works on: `strings.Split(output, "\n")`. -/
def linesOf (output : String) : List (List Char) :=
  splitP (fun c => c = '\n') output.data

/-- `parseSystemPingOutput` (identical in both variants). -/
def parseSystemPingOutput (output : String) : Except GoErr ℚ :=
  match scanLines (linesOf output) (linesOf output).length with
  | some v => Except.ok v
  | none => Except.error (GoErr.parseFail output)

/-! ## The parser over the full `float64` value domain

`strconv.ParseFloat` returns NaN for `"NaN"` and infinities for the
possibly-signed strings `"Inf"`/`"Infinity"` (case-insensitive), all
with a nil error — so the Go parser can succeed with a non-finite
value (e.g. on `"Average = NaNms"`).  `ℚ` cannot represent these, so
the value domain is extended and the same parser is embedded a second
time over it; the `...F` definitions below differ from the ones above
only in the token parser. -/

/-- A `float64` value as `ParseFloat` can produce it: a finite value
(exact rational), NaN, or a signed infinity. -/
inductive GoFloat : Type where
  | finite (q : ℚ) : GoFloat
  | nan : GoFloat
  | inf (neg : Bool) : GoFloat
deriving DecidableEq, Repr

/-- The `float64` test `v < 0`: false for NaN, the sign for an
infinity. -/
def GoFloat.isNeg : GoFloat → Bool
  | GoFloat.finite q => decide (q < 0)
  | GoFloat.nan => false
  | GoFloat.inf neg => neg

/-- Case-insensitive whole-token match against an all-lowercase ASCII
target (`'N'` matches `'n'` via the +32 code-point offset). -/
def matchLower : List Char → List Char → Bool
  | [], [] => true
  | c :: cs, t :: ts => (c = t || c.toNat + 32 = t.toNat) && matchLower cs ts
  | _, _ => false

/-- The special-value recognition of `ParseFloat` (`special` in Go's
`strconv/atof.go`): the unsigned string `nan`, and the possibly-signed
strings `inf` / `infinity`, case-insensitively, consuming the whole
token. -/
def parseSpecial (cs : List Char) : Option GoFloat :=
  if matchLower cs "nan".data then some GoFloat.nan
  else
    if matchLower (parseSign cs).2 "inf".data ||
        matchLower (parseSign cs).2 "infinity".data then
      some (GoFloat.inf (parseSign cs).1)
    else none

/-- `strconv.ParseFloat` over the full value domain: the special values
first (as in `atof.go`), then the decimal forms of `parseFloatL`. -/
def parseFloatFull (cs : List Char) : Option GoFloat :=
  match parseSpecial cs with
  | some v => some v
  | none => (parseFloatL cs).map GoFloat.finite

/-- `slashScan` with the full token parser. -/
def slashScanF : List (List Char) → Option GoFloat
  | [] => none
  | part :: rest =>
    if containsL ['/'] part then
      if 4 ≤ (splitP (fun c => c = '/') part).length then
        match parseFloatFull ((splitP (fun c => c = '/') part).getD 1 []) with
        | some v => some v
        | none => slashScanF rest
      else slashScanF rest
    else slashScanF rest

/-- `tryRoundTripLine` with the full token parser. -/
def tryRoundTripLineF (line : List Char) : Option GoFloat :=
  if containsL "round-trip".data line || containsL "rtt".data line then
    slashScanF (fieldsList line)
  else none

/-- `avgScan` with the full token parser. -/
def avgScanF (parts : List (List Char)) : List (List Char) → Nat → Option GoFloat
  | [], _ => none
  | p :: rest, i =>
    if p = "Average".data ∧ i + 2 < parts.length then
      match parseFloatFull (trimSuffixL (parts.getD (i + 2) []) "ms".data) with
      | some v => some v
      | none => avgScanF parts rest (i + 1)
    else avgScanF parts rest (i + 1)

/-- `tryAverageLine` with the full token parser. -/
def tryAverageLineF (line : List Char) : Option GoFloat :=
  if containsL "Average =".data line then
    avgScanF (fieldsList line) (fieldsList line) 0
  else none

/-- `scanLines` with the full token parser. -/
def scanLinesF (lines : List (List Char)) : Nat → Option GoFloat
  | 0 => none
  | n + 1 =>
    match tryRoundTripLineF (lines.getD n []) with
    | some v => some v
    | none =>
      match tryAverageLineF (lines.getD n []) with
      | some v => some v
      | none => scanLinesF lines n

/-- `parseSystemPingOutput` with the full token parser. -/
def parseSystemPingOutputF (output : String) : Except GoErr GoFloat :=
  match scanLinesF (linesOf output) (linesOf output).length with
  | some v => Except.ok v
  | none => Except.error (GoErr.parseFail output)

/-! ## `resolveIP`

Identical in both variants.  `net.LookupIP` is external: its outcome is
an input.  A resolved address is abstracted to whether `ip.To4() != nil`
(it is IPv4-shaped) together with the literal `ip.String()` renders. -/

/-- One address returned by `net.LookupIP`: `to4` is whether
`ip.To4() != nil`, `str` is `ip.String()`. -/
structure GoIP : Type where
  to4 : Bool
  str : String
deriving DecidableEq, Repr

/-- The `for _, ip := range ips` filter loop of `resolveIP`: keep an
address if (`useIPv4` and it is IPv4-shaped), else if (`useIPv6` and it
is not IPv4-shaped). -/
def filterIPs (useIPv4 useIPv6 : Bool) : List GoIP → List String
  | [] => []
  | ip :: rest =>
    if useIPv4 && ip.to4 then ip.str :: filterIPs useIPv4 useIPv6 rest
    else if useIPv6 && !ip.to4 then ip.str :: filterIPs useIPv4 useIPv6 rest
    else filterIPs useIPv4 useIPv6 rest

/-- `resolveIP`, with the `net.LookupIP` outcome supplied as `lookup`. -/
def resolveIP (lookup : Except GoErr (List GoIP)) (useIPv4 useIPv6 : Bool) :
    Except GoErr (List String) :=
  match lookup with
  | Except.error e => Except.error e
  | Except.ok ips => Except.ok (filterIPs useIPv4 useIPv6 ips)

/-! ## `getPingTime`

The external world seen by one `getPingTime` call: the DNS outcome and,
for each candidate index, the outcome either probe strategy would
report.  `pingWithGoPing` / `pingWithSystem` are network-facing and are
abstracted to these oracles; which one is consulted follows
`cfg.UseSystemPing` exactly as in the source. -/

/-- Environment of one `getPingTime` call. -/
structure PingEnv : Type where
  /-- outcome of `net.LookupIP cfg.PingHost`. -/
  lookup : Except GoErr (List GoIP)
  /-- outcome of `pingWithSystem ip cfg.PingCount cfg.PingTimeout` for
  the candidate at position `i`. -/
  probeSystem : Nat → String → Except GoErr ℚ
  /-- outcome of `pingWithGoPing ip cfg.PingCount cfg.PingTimeout` for
  the candidate at position `i`. -/
  probeGo : Nat → String → Except GoErr ℚ

/-- `if cfg.UseSystemPing { pingWithSystem(...) } else { pingWithGoPing(...) }`. -/
def probeOf (env : PingEnv) (cfg : Config) (i : Nat) (ip : String) : Except GoErr ℚ :=
  if cfg.useSystemPing then env.probeSystem i ip else env.probeGo i ip

/-- The candidate loop of the main variant's `getPingTime`
(`src/unnamed/part_000`): first success returns immediately; when the
list is exhausted, return `fmt.Errorf("all ping attempts failed: %w",
lastErr)`.  The second component records which candidate positions were
probed, in order. -/
def mainPingLoop (env : PingEnv) (cfg : Config) :
    List String → Nat → Option GoErr → Except GoErr ℚ × List Nat
  | [], _, lastErr =>
    (Except.error (GoErr.allPingFail (lastErr.getD GoErr.nilErr)), [])
  | ip :: rest, i, _ =>
    match probeOf env cfg i ip with
    | Except.ok q => (Except.ok q, [i])
    | Except.error e =>
      let r := mainPingLoop env cfg rest (i + 1) (some e)
      (r.1, i :: r.2)

/-- The candidate loop of the method variant's `getPingTime`
(`src/internal/method/reporter.go`): identical except that exhaustion
returns `0, lastErr` — the last probe error itself, unwrapped (and the
Go `nil` error, i.e. success with value `0`, in the unreachable case of
an empty list). -/
def methodPingLoop (env : PingEnv) (cfg : Config) :
    List String → Nat → Option GoErr → Except GoErr ℚ × List Nat
  | [], _, lastErr =>
    (match lastErr with
     | some e => Except.error e
     | none => Except.ok 0, [])
  | ip :: rest, i, _ =>
    match probeOf env cfg i ip with
    | Except.ok q => (Except.ok q, [i])
    | Except.error e =>
      let r := methodPingLoop env cfg rest (i + 1) (some e)
      (r.1, i :: r.2)

/-- `getPingTime` of the main variant, also reporting which candidate
positions were probed. -/
def mainPingRun (env : PingEnv) (cfg : Config) : Except GoErr ℚ × List Nat :=
  match resolveIP env.lookup cfg.useIPv4 cfg.useIPv6 with
  | Except.error e => (Except.error (GoErr.dnsFail e), [])
  | Except.ok ips =>
    if ips.length = 0 then (Except.error (GoErr.noValidIPs cfg.pingHost), [])
    else mainPingLoop env cfg ips 0 none

/-- `getPingTime` of the method variant, also reporting which candidate
positions were probed. -/
def methodPingRun (env : PingEnv) (cfg : Config) : Except GoErr ℚ × List Nat :=
  match resolveIP env.lookup cfg.useIPv4 cfg.useIPv6 with
  | Except.error e => (Except.error (GoErr.dnsFail e), [])
  | Except.ok ips =>
    if ips.length = 0 then (Except.error (GoErr.noValidIPs cfg.pingHost), [])
    else methodPingLoop env cfg ips 0 none

/-- `getPingTime` of the main variant (result only). -/
def mainGetPingTime (env : PingEnv) (cfg : Config) : Except GoErr ℚ :=
  (mainPingRun env cfg).1

/-- `getPingTime` of the method variant (result only). -/
def methodGetPingTime (env : PingEnv) (cfg : Config) : Except GoErr ℚ :=
  (methodPingRun env cfg).1

/-! ## `sendReport`

Identical logic in both variants.  `fmt.Sprintf("%.2f", x)` is modelled
exactly (round to two decimals, ties to even, as `%.2f` does on the
underlying value); `url.Values.Encode` emits the parameters sorted by
key (`msg < ping < status`) with percent-escaping, which is abstracted
to the ordered list of decoded key/value pairs. -/

/-- The decimal digit character for `d % 10`. -/
def digitChar (d : Nat) : Char :=
  match d % 10 with
  | 0 => '0' | 1 => '1' | 2 => '2' | 3 => '3' | 4 => '4'
  | 5 => '5' | 6 => '6' | 7 => '7' | 8 => '8' | _ => '9'

/-- Decimal digits, most significant first, with structural fuel (the
fuel `n + 1` always suffices since `n / 10 < n` for `n ≥ 10`). -/
def natDigitsAux : Nat → Nat → List Char
  | 0, _ => []
  | fuel + 1, n =>
    if n < 10 then [digitChar n]
    else natDigitsAux fuel (n / 10) ++ [digitChar (n % 10)]

/-- Decimal digits of `n`, most significant first (the digits `%d`
prints). -/
def natDigits (n : Nat) : List Char := natDigitsAux (n + 1) n

/-- Round `n / d` (with `d > 0`) to the nearest integer, ties to even —
the rounding `%.2f` applies to the scaled value. -/
def round2 (n d : Nat) : Nat :=
  let q := n / d
  let r := n % d
  if 2 * r < d then q
  else if d < 2 * r then q + 1
  else if q % 2 = 0 then q else q + 1

/-- Character content of `fmt.Sprintf("%.2f", q)`: optional sign, the
integer part, `'.'`, and exactly two fractional digits. -/
def fmt2fDigits (q : ℚ) : List Char :=
  let c := round2 (100 * q.num.natAbs) q.den
  (if q.num < 0 then ['-'] else []) ++
    natDigits (c / 100) ++ '.' :: [digitChar (c % 100 / 10), digitChar (c % 100 % 10)]

/-- `fmt.Sprintf("%.2f", q)`. -/
def fmt2f (q : ℚ) : String := ⟨fmt2fDigits q⟩

/-- Environment of one `sendReport` call: whether `url.Parse` accepts
the configured URL, and what `client.Get` returns (a transport error or
a status code). -/
structure SendEnv : Type where
  parseOk : Bool
  getResult : Except GoErr Nat

/-- The single GET request `sendReport` issues, as base URL plus the
decoded query parameters in the order `url.Values.Encode` emits them
(sorted by key). -/
structure Request : Type where
  urlBase : String
  params : List (String × String)
deriving DecidableEq, Repr

/-- `sendReport`: returns the Go error (or `none` on success) together
with the request issued (`none` when `url.Parse` failed and no request
was made). -/
def sendReport (env : SendEnv) (cfg : Config) (pingTime : ℚ) :
    Option GoErr × Option Request :=
  if env.parseOk then
    let req : Request :=
      { urlBase := cfg.reportURL
        params := [("msg", cfg.statusMessage), ("ping", fmt2f pingTime), ("status", "up")] }
    match env.getResult with
    | Except.error e => (some (GoErr.httpReqFail e), some req)
    | Except.ok code =>
      if code ≠ 200 then (some (GoErr.badStatus code), some req)
      else (none, some req)
  else (some (GoErr.invalidURL cfg.reportURL), none)

/-! ## `reportWithRetry`

The retry loop.  Each attempt consults the environment: the attempt's
cancellation check, the `PingEnv` its `getPingTime` call sees, and the
`SendEnv` its `sendReport` call sees.  The returned trace records, in
order, the externally visible actions: a measurement (`getPingTime`
call), a send (`sendReport` call), a `time.Sleep(cfg.RetryDelay)`. -/

/-- Environment of one `reportWithRetry` call, per attempt number
(attempts are numbered from 1, as in the source). -/
structure RetryEnv : Type where
  /-- whether `ctx.Done()` is ready at the top of attempt `n`. -/
  cancelled : Nat → Bool
  /-- the external world seen by attempt `n`'s `getPingTime`. -/
  pingEnv : Nat → PingEnv
  /-- the external world seen by attempt `n`'s `sendReport`. -/
  sendEnv : Nat → SendEnv

/-- Externally visible actions of the retry loop. -/
inductive REvent : Type where
  /-- attempt `n` ran `getPingTime`. -/
  | measure (n : Nat) : REvent
  /-- attempt `n` ran `sendReport`. -/
  | send (n : Nat) : REvent
  /-- attempt `n` slept for `cfg.RetryDelay`. -/
  | sleep (n : Nat) : REvent
deriving DecidableEq, Repr

/-- The loop body of the main variant's `reportWithRetry`
(`src/unnamed/part_000`), iterated `n` more times starting at attempt
number `attempt`, with `lastErr` the current value of the `lastErr`
variable.  On a stage failure the wrapped error is recorded in
`lastErr`; exhaustion returns `lastErr`. -/
def mainReportLoop (env : RetryEnv) (cfg : Config) :
    Nat → Nat → Option GoErr → Option GoErr × List REvent
  | _, 0, lastErr => (lastErr, [])
  | attempt, n + 1, _ =>
    if env.cancelled attempt then (some GoErr.ctxCanceled, [])
    else
      match mainGetPingTime (env.pingEnv attempt) cfg with
      | Except.error e =>
        let r := mainReportLoop env cfg (attempt + 1) n
          (some (GoErr.pingAttemptFail attempt cfg.maxRetries e))
        (r.1, REvent.measure attempt :: REvent.sleep attempt :: r.2)
      | Except.ok q =>
        match (sendReport (env.sendEnv attempt) cfg q).1 with
        | some e =>
          let r := mainReportLoop env cfg (attempt + 1) n
            (some (GoErr.reportAttemptFail attempt cfg.maxRetries e))
          (r.1, REvent.measure attempt :: REvent.send attempt :: REvent.sleep attempt :: r.2)
        | none => (none, [REvent.measure attempt, REvent.send attempt])

/-- The loop body of the method variant's `reportWithRetry`
(`src/internal/method/reporter.go`).  Identical shape, but its `lastErr`
variable is declared and returned yet never assigned, so the loop
carries it unchanged (it is `nil` for the whole run). -/
def methodReportLoop (env : RetryEnv) (cfg : Config) :
    Nat → Nat → Option GoErr → Option GoErr × List REvent
  | _, 0, lastErr => (lastErr, [])
  | attempt, n + 1, lastErr =>
    if env.cancelled attempt then (some GoErr.ctxCanceled, [])
    else
      match methodGetPingTime (env.pingEnv attempt) cfg with
      | Except.error _ =>
        let r := methodReportLoop env cfg (attempt + 1) n lastErr
        (r.1, REvent.measure attempt :: REvent.sleep attempt :: r.2)
      | Except.ok q =>
        match (sendReport (env.sendEnv attempt) cfg q).1 with
        | some _ =>
          let r := methodReportLoop env cfg (attempt + 1) n lastErr
          (r.1, REvent.measure attempt :: REvent.send attempt :: REvent.sleep attempt :: r.2)
        | none => (none, [REvent.measure attempt, REvent.send attempt])

/-- `reportWithRetry` of the main variant: `for attempt := 1; attempt <=
cfg.MaxRetries; attempt++` runs the body `max(0, cfg.MaxRetries)` times
starting from attempt 1 with `lastErr = nil`. -/
def mainReportWithRetry (env : RetryEnv) (cfg : Config) : Option GoErr × List REvent :=
  mainReportLoop env cfg 1 cfg.maxRetries.toNat none

/-- `reportWithRetry` of the method variant. -/
def methodReportWithRetry (env : RetryEnv) (cfg : Config) : Option GoErr × List REvent :=
  methodReportLoop env cfg 1 cfg.maxRetries.toNat none

/-! ## Auxiliary notions used by the statements below -/

/-- One line's worth of parsing, spec-side: the round-trip branch first,
then the `Average =` branch.  Used to characterise the scan order of
`parseSystemPingOutput`. -/
def parseLine (line : List Char) : Option ℚ :=
  match tryRoundTripLine line with
  | some v => some v
  | none => tryAverageLine line

/-- Did this probe outcome succeed? -/
def isOkE : Except GoErr ℚ → Bool
  | Except.ok _ => true
  | Except.error _ => false

/-- Is this error the `"all ping attempts failed"` wrapper? -/
def isAllPingWrap : GoErr → Bool
  | GoErr.allPingFail _ => true
  | _ => false

/-- Is this trace event a `getPingTime` call? -/
def isMeasureEv : REvent → Bool
  | REvent.measure _ => true
  | _ => false

/-- Is this trace event a `time.Sleep(cfg.RetryDelay)`? -/
def isSleepEv : REvent → Bool
  | REvent.sleep _ => true
  | _ => false

/-- `[i, i+1, …, i+n-1]`: the candidate positions a ping loop probes. -/
def natsFrom (i : Nat) : Nat → List Nat
  | 0 => []
  | n + 1 => i :: natsFrom (i + 1) n

/-- The per-attempt outcome of the main variant's measure-then-send
stage: `none` when the attempt succeeds, otherwise the wrapped error the
attempt stores into `lastErr`. -/
def attemptOutcome (env : RetryEnv) (cfg : Config) (k : Nat) : Option GoErr :=
  match mainGetPingTime (env.pingEnv k) cfg with
  | Except.error e => some (GoErr.pingAttemptFail k cfg.maxRetries e)
  | Except.ok q =>
    match (sendReport (env.sendEnv k) cfg q).1 with
    | some e => some (GoErr.reportAttemptFail k cfg.maxRetries e)
    | none => none

/-- The number of characters after the last `'.'` of a string (the
whole length if there is no dot): the count of decimal places of a
formatted number. -/
def fracLen (s : String) : Nat :=
  (s.data.reverse.takeWhile (fun c => c != '.')).length

/-! ## Concrete fixtures for witnesses and counterexamples -/

/-- A configuration with `MaxRetries = 3` (the spec's example value). -/
def cfgEx : Config :=
  { reportURL := "http://kuma.example/api/push/x", pingHost := "ping.example"
    reportPeriod := 40, maxRetries := 3, retryDelay := 5, pingCount := 4
    pingTimeout := 10, httpTimeout := 15, statusMessage := "OK"
    useIPv4 := true, useIPv6 := false, useSystemPing := false }

/-- `cfgEx` with `MaxRetries = 1`. -/
def cfgOne : Config := { cfgEx with maxRetries := 1 }

/-- `cfgEx` with `MaxRetries = 0`. -/
def cfgZero : Config := { cfgEx with maxRetries := 0 }

/-- DNS yields one IPv4 address whose probe always fails. -/
def peFail : PingEnv :=
  { lookup := Except.ok [⟨true, "1.2.3.4"⟩]
    probeSystem := fun _ _ => Except.error (GoErr.probeFail "boom")
    probeGo := fun _ _ => Except.error (GoErr.probeFail "boom") }

/-- DNS yields two IPv4 addresses; probing fails with `"e1"` then `"e2"`. -/
def peTwoFail : PingEnv :=
  { lookup := Except.ok [⟨true, "10.0.0.1"⟩, ⟨true, "10.0.0.2"⟩]
    probeSystem := fun i _ =>
      Except.error (GoErr.probeFail (if i = 0 then "e1" else "e2"))
    probeGo := fun i _ =>
      Except.error (GoErr.probeFail (if i = 0 then "e1" else "e2")) }

/-- DNS yields three IPv4 addresses; probing the first two fails and the
third succeeds with `12.5` (the spec's orchestrator example). -/
def peThird : PingEnv :=
  { lookup := Except.ok [⟨true, "10.0.0.1"⟩, ⟨true, "10.0.0.2"⟩, ⟨true, "10.0.0.3"⟩]
    probeSystem := fun i _ =>
      if i = 2 then Except.ok (mkRat 25 2) else Except.error (GoErr.probeFail "down")
    probeGo := fun i _ =>
      if i = 2 then Except.ok (mkRat 25 2) else Except.error (GoErr.probeFail "down") }

/-- A send environment that accepts the request with status 200. -/
def seOk : SendEnv := { parseOk := true, getResult := Except.ok 200 }

/-- Retry environment in which every attempt's measurement fails and
cancellation never fires. -/
def envAllFail : RetryEnv :=
  { cancelled := fun _ => false, pingEnv := fun _ => peFail, sendEnv := fun _ => seOk }

/-- Retry environment in which cancellation is set from the start. -/
def envCancelled : RetryEnv :=
  { cancelled := fun _ => true, pingEnv := fun _ => peFail, sendEnv := fun _ => seOk }

/-! ## Helper lemmas: the address filter -/

lemma filterIPs_v4 (ips : List GoIP) :
    filterIPs true false ips = (ips.filter fun ip => ip.to4).map GoIP.str := by
  induction ips with
  | nil => rfl
  | cons ip rest ih => cases h : ip.to4 <;> simp [filterIPs, h, ih]

lemma filterIPs_v6 (ips : List GoIP) :
    filterIPs false true ips = (ips.filter fun ip => !ip.to4).map GoIP.str := by
  induction ips with
  | nil => rfl
  | cons ip rest ih => cases h : ip.to4 <;> simp [filterIPs, h, ih]

lemma filterIPs_none (ips : List GoIP) : filterIPs false false ips = [] := by
  induction ips with
  | nil => rfl
  | cons ip rest ih => simp [filterIPs, ih]

/-! ## The claims -/

/-- Claim C4: the parser maps the macOS/Linux summary line
`round-trip min/avg/max/stddev = 1.234/2.345/3.456/0.123 ms` to `2.345`,
the Windows summary line `Minimum = 1ms, Maximum = 5ms, Average = 3ms`
to `3.0`, and `garbage output` to the parse error. -/
theorem c4_parser_examples :
    parseSystemPingOutput "round-trip min/avg/max/stddev = 1.234/2.345/3.456/0.123 ms" =
      Except.ok (2.345 : ℚ) ∧
    parseSystemPingOutput "Minimum = 1ms, Maximum = 5ms, Average = 3ms" =
      Except.ok (3.0 : ℚ) ∧
    parseSystemPingOutput "garbage output" =
      Except.error (GoErr.parseFail "garbage output") := by
  refine ⟨?_, ?_, by decide⟩
  · have h : parseSystemPingOutput "round-trip min/avg/max/stddev = 1.234/2.345/3.456/0.123 ms" =
        Except.ok (mkRat 2345 1000) := by decide
    rw [h]
    have hq : (2.345 : ℚ) = Rat.ofScientific 2345 true 3 := rfl
    rw [hq, Rat.ofScientific_def]
    norm_num
  · have h : parseSystemPingOutput "Minimum = 1ms, Maximum = 5ms, Average = 3ms" =
        Except.ok (mkRat 3 1) := by decide
    rw [h]
    have hq : (3.0 : ℚ) = Rat.ofScientific 30 true 1 := rfl
    rw [hq, Rat.ofScientific_def]
    norm_num

/-- Claim C6: `resolveIP` with `(useIPv4, useIPv6) = (true, false)`
keeps exactly the IPv4-shaped addresses, with `(false, true)` exactly
the non-IPv4-shaped ones, and with `(false, false)` nothing — in each
case preserving resolver order and multiplicity (the result is the
order-preserving filter of the resolved list, not deduplicated). -/
theorem c6_resolve_filtering (ips : List GoIP) :
    resolveIP (Except.ok ips) true false =
      Except.ok ((ips.filter fun ip => ip.to4).map GoIP.str) ∧
    resolveIP (Except.ok ips) false true =
      Except.ok ((ips.filter fun ip => !ip.to4).map GoIP.str) ∧
    resolveIP (Except.ok ips) false false = Except.ok ([] : List String) := by
  refine ⟨?_, ?_, ?_⟩ <;> simp only [resolveIP]
  · rw [filterIPs_v4]
  · rw [filterIPs_v6]
  · rw [filterIPs_none]

/-- Claim C10: with `MaxRetries <= 0` the retry loop body never runs, so
both variants of `reportWithRetry` return the Go `nil` error and produce
no measurement, send or sleep — indistinguishable from success. -/
theorem c10_nonpositive_budget (env : RetryEnv) (cfg : Config)
    (h : cfg.maxRetries ≤ 0) :
    mainReportWithRetry env cfg = (none, []) ∧
    methodReportWithRetry env cfg = (none, []) := by
  have hz : cfg.maxRetries.toNat = 0 := by omega
  constructor <;>
    simp [mainReportWithRetry, methodReportWithRetry, hz, mainReportLoop, methodReportLoop]

/-- Witness for C10 at `MaxRetries = 0`. -/
theorem c10_witness :
    cfgZero.maxRetries ≤ 0 ∧
    mainReportWithRetry envAllFail cfgZero = (none, []) ∧
    methodReportWithRetry envAllFail cfgZero = (none, []) :=
  ⟨by decide, (c10_nonpositive_budget envAllFail cfgZero (by decide)).1,
    (c10_nonpositive_budget envAllFail cfgZero (by decide)).2⟩

/-- Claim C8: if the cancellation signal is set at the top of an
attempt, both variants of the retry loop return `ctx.Err()` at once,
with an empty action trace — no measurement, no send, no sleep; in
particular this holds for a whole `reportWithRetry` call whose first
attempt finds the signal set. -/
theorem c8_cancellation (env : RetryEnv) (cfg : Config) (attempt n : Nat)
    (lastErr : Option GoErr) (hc : env.cancelled attempt = true) :
    (0 < n →
      mainReportLoop env cfg attempt n lastErr = (some GoErr.ctxCanceled, []) ∧
      methodReportLoop env cfg attempt n lastErr = (some GoErr.ctxCanceled, [])) ∧
    (attempt = 1 → 0 < cfg.maxRetries →
      mainReportWithRetry env cfg = (some GoErr.ctxCanceled, []) ∧
      methodReportWithRetry env cfg = (some GoErr.ctxCanceled, [])) := by
  have key : ∀ (le : Option GoErr) (m : Nat),
      mainReportLoop env cfg attempt (m + 1) le = (some GoErr.ctxCanceled, []) ∧
      methodReportLoop env cfg attempt (m + 1) le = (some GoErr.ctxCanceled, []) := by
    intro le m
    constructor <;> simp [mainReportLoop, methodReportLoop, hc]
  constructor
  · intro hn
    cases n with
    | zero => omega
    | succ m => exact key lastErr m
  · rintro rfl hpos
    obtain ⟨m, hm⟩ : ∃ m, cfg.maxRetries.toNat = m + 1 :=
      ⟨cfg.maxRetries.toNat - 1, by omega⟩
    unfold mainReportWithRetry methodReportWithRetry
    rw [hm]
    exact key none m

/-- Witness for C8: cancellation set from the start, `MaxRetries = 3`. -/
theorem c8_witness :
    envCancelled.cancelled 1 = true ∧
    mainReportLoop envCancelled cfgEx 1 3 none = (some GoErr.ctxCanceled, []) ∧
    methodReportLoop envCancelled cfgEx 1 3 none = (some GoErr.ctxCanceled, []) ∧
    mainReportWithRetry envCancelled cfgEx = (some GoErr.ctxCanceled, []) ∧
    methodReportWithRetry envCancelled cfgEx = (some GoErr.ctxCanceled, []) := by
  have h := c8_cancellation envCancelled cfgEx 1 3 none rfl
  exact ⟨rfl, (h.1 (by decide)).1, (h.1 (by decide)).2,
    (h.2 rfl (by decide)).1, (h.2 rfl (by decide)).2⟩

/-- Claim C2 (divergence evidence): with one failing attempt, the
method variant's `reportWithRetry` returns the Go `nil` error while the
main variant returns the wrapped attempt error (the method variant
declares `lastErr` but never assigns it); and at exhaustion the method
variant's `getPingTime` returns the bare last probe error where the
main variant wraps it in `"all ping attempts failed"`.  The traces are
identical, so the divergence is exactly in the returned errors. -/
theorem c2_variant_divergence :
    mainReportWithRetry envAllFail cfgOne =
      (some (GoErr.pingAttemptFail 1 1 (GoErr.allPingFail (GoErr.probeFail "boom"))),
       [REvent.measure 1, REvent.sleep 1]) ∧
    methodReportWithRetry envAllFail cfgOne =
      (none, [REvent.measure 1, REvent.sleep 1]) ∧
    mainGetPingTime peFail cfgOne = Except.error (GoErr.allPingFail (GoErr.probeFail "boom")) ∧
    methodGetPingTime peFail cfgOne = Except.error (GoErr.probeFail "boom") := by
  refine ⟨by decide, by decide, by decide, by decide⟩

/-- Counterexample to claim C3 as stated: when every candidate fails,
the method variant's `getPingTime` returns the last candidate's error
itself, not a wrapped error referencing it. -/
theorem c3_counterexample :
    methodGetPingTime peTwoFail cfgEx = Except.error (GoErr.probeFail "e2") ∧
    isAllPingWrap (GoErr.probeFail "e2") = false ∧
    mainGetPingTime peTwoFail cfgEx =
      Except.error (GoErr.allPingFail (GoErr.probeFail "e2")) := by
  refine ⟨by decide, by decide, by decide⟩

/-- Counterexample to claim C1 as stated: with `MaxRetries = 3` and
every measurement failing, the trace contains a sleep after the third
(final) attempt — three sleeps, not the two the claim's "not after the
last attempt" implies. -/
theorem c1_counterexample :
    mainReportWithRetry envAllFail cfgEx =
      (some (GoErr.pingAttemptFail 3 3 (GoErr.allPingFail (GoErr.probeFail "boom"))),
       [REvent.measure 1, REvent.sleep 1, REvent.measure 2, REvent.sleep 2,
        REvent.measure 3, REvent.sleep 3]) ∧
    (mainReportWithRetry envAllFail cfgEx).2.countP isSleepEv = 3 ∧
    ¬ (mainReportWithRetry envAllFail cfgEx).2.countP isSleepEv = 3 - 1 := by
  refine ⟨by decide, by decide, by decide⟩

/-- Counterexample to claim C9 as stated: the parser does not enforce
non-negativity — an input whose summary line carries a negative average
parses successfully to a negative value. -/
theorem c9_counterexample :
    parseSystemPingOutput "rtt = -1/-2/-3/-4 ms" = Except.ok (-2 : ℚ) ∧
    ¬ (0 ≤ (-2 : ℚ)) := by
  constructor
  · have h : parseSystemPingOutput "rtt = -1/-2/-3/-4 ms" = Except.ok (mkRat (-2) 1) := by
      decide
    rw [h]
    norm_num [Rat.mkRat_eq_div]
  · norm_num

/-! ## Helper lemmas: the backward scan -/

/-- One line parses to `none` exactly when both recognised formats fail
on it. -/
lemma parseLine_eq_none (l : List Char) :
    parseLine l = none ↔ tryRoundTripLine l = none ∧ tryAverageLine l = none := by
  unfold parseLine
  cases h : tryRoundTripLine l <;> simp [h]

/-- The index-descending scan equals `findSome?` over the reversed
prefix it has scanned. -/
lemma scanLines_take (lines : List (List Char)) :
    ∀ n, n ≤ lines.length →
      scanLines lines n = ((lines.take n).reverse.findSome? parseLine) := by
  intro n
  induction n with
  | zero => intro _; simp [scanLines]
  | succ m ih =>
    intro h
    have hm : m < lines.length := by omega
    have hget : lines.getD m [] = lines[m] := List.getD_eq_getElem lines [] hm
    simp only [scanLines, hget]
    rw [List.take_succ, List.getElem?_eq_getElem hm]
    simp only [Option.toList_some, List.reverse_append, List.reverse_singleton,
      List.singleton_append, List.findSome?_cons]
    cases h1 : tryRoundTripLine lines[m] with
    | some v => simp [parseLine, h1]
    | none =>
      cases h2 : tryAverageLine lines[m] with
      | some v => simp [parseLine, h1, h2]
      | none => simp [parseLine, h1, h2, ih (by omega)]

/-- Claim C5: the parser is exactly the backward scan — split on
newlines, scan from the last line upward, on each line try the
round-trip/rtt slash format before the `Average =` format, return the
first successful parse; unmatched lines are skipped, and the parse
error is returned exactly when no line yields a value in either
format. -/
theorem c5_scan_order (output : String) :
    parseSystemPingOutput output =
      (match (linesOf output).reverse.findSome? parseLine with
       | some v => Except.ok v
       | none => Except.error (GoErr.parseFail output)) ∧
    (parseSystemPingOutput output = Except.error (GoErr.parseFail output) ↔
      ∀ line ∈ linesOf output,
        tryRoundTripLine line = none ∧ tryAverageLine line = none) := by
  have h := scanLines_take (linesOf output) (linesOf output).length (le_refl _)
  rw [List.take_length] at h
  have hmain : parseSystemPingOutput output =
      (match (linesOf output).reverse.findSome? parseLine with
       | some v => Except.ok v
       | none => Except.error (GoErr.parseFail output)) := by
    show (match scanLines (linesOf output) (linesOf output).length with
       | some v => Except.ok v
       | none => Except.error (GoErr.parseFail output)) =
      (match (linesOf output).reverse.findSome? parseLine with
       | some v => Except.ok v
       | none => Except.error (GoErr.parseFail output))
    rw [h]
  refine ⟨hmain, ?_⟩
  rw [hmain]
  cases hf : (linesOf output).reverse.findSome? parseLine with
  | some v =>
    simp only [reduceCtorEq, false_iff]
    intro hall
    have : ∀ line ∈ (linesOf output).reverse, parseLine line = none := by
      intro line hl
      rw [parseLine_eq_none]
      exact hall line (List.mem_reverse.mp hl)
    rw [List.findSome?_eq_none_iff.mpr this] at hf
    exact Option.noConfusion hf
  | none =>
    simp only [true_iff]
    intro line hl
    rw [← parseLine_eq_none]
    exact List.findSome?_eq_none_iff.mp hf line (List.mem_reverse.mpr hl)

/-! ## Helper lemmas: the candidate loop of `getPingTime` -/

lemma natsFrom_eq_range (n : Nat) : ∀ i, natsFrom i n = (List.range n).map (i + ·) := by
  induction n with
  | zero => intro i; simp [natsFrom]
  | succ n ih =>
    intro i
    have h1 : natsFrom i (n + 1) = i :: natsFrom (i + 1) n := rfl
    rw [h1, ih (i + 1), List.range_succ_eq_map, List.map_cons, List.map_map]
    congr 1
    apply List.map_congr_left
    intro a _
    simp only [Function.comp_apply]
    omega

lemma natsFrom_zero (n : Nat) : natsFrom 0 n = List.range n := by
  rw [natsFrom_eq_range]
  simp

/-- If the candidates before position `k` all fail and position `k`
succeeds with `q`, both ping loops return `q` and probe exactly the
positions up to `k`. -/
lemma pingLoop_success (env : PingEnv) (cfg : Config) :
    ∀ (ips : List String) (i k : Nat) (le le' : Option GoErr) (q : ℚ),
      k < ips.length →
      (∀ j, j < k → isOkE (probeOf env cfg (i + j) (ips.getD j "")) = false) →
      probeOf env cfg (i + k) (ips.getD k "") = Except.ok q →
      mainPingLoop env cfg ips i le = (Except.ok q, natsFrom i (k + 1)) ∧
      methodPingLoop env cfg ips i le' = (Except.ok q, natsFrom i (k + 1)) := by
  intro ips
  induction ips with
  | nil => intro i k le le' q hk hfail hsucc; simp at hk
  | cons ip rest ih =>
    intro i k le le' q hk hfail hsucc
    cases k with
    | zero =>
      have hp : probeOf env cfg i ip = Except.ok q := by simpa using hsucc
      constructor <;> simp [mainPingLoop, methodPingLoop, hp, natsFrom]
    | succ k =>
      have hp0 := hfail 0 (by omega)
      simp only [Nat.add_zero, List.getD_cons_zero] at hp0
      cases hp : probeOf env cfg i ip with
      | ok w => rw [hp] at hp0; exact absurd hp0 (by simp [isOkE])
      | error e =>
        have hk' : k < rest.length := by
          simp only [List.length_cons] at hk
          omega
        have hrest := ih (i + 1) k (some e) (some e) q hk'
          (fun j hj => by
            have h2 := hfail (j + 1) (by omega)
            have he : i + (j + 1) = i + 1 + j := by omega
            rw [he] at h2
            simpa [List.getD_cons_succ] using h2)
          (by
            have h2 := hsucc
            have he : i + (k + 1) = i + 1 + k := by omega
            rw [he] at h2
            simpa [List.getD_cons_succ] using h2)
        constructor
        · rw [mainPingLoop, hp]
          simp only [hrest.1, natsFrom]
        · rw [methodPingLoop, hp]
          simp only [hrest.2, natsFrom]

/-- If every candidate fails (position `j` with error `f j`), the main
loop returns the wrapped last failure, the method loop the bare last
failure, and both probe every position. -/
lemma pingLoop_allFail (env : PingEnv) (cfg : Config) :
    ∀ (ips : List String) (i : Nat) (le le' : Option GoErr) (f : Nat → GoErr),
      ips ≠ [] →
      (∀ j, j < ips.length → probeOf env cfg (i + j) (ips.getD j "") = Except.error (f (i + j))) →
      mainPingLoop env cfg ips i le =
        (Except.error (GoErr.allPingFail (f (i + ips.length - 1))), natsFrom i ips.length) ∧
      methodPingLoop env cfg ips i le' =
        (Except.error (f (i + ips.length - 1)), natsFrom i ips.length) := by
  intro ips
  induction ips with
  | nil => intro i le le' f hne; exact absurd rfl hne
  | cons ip rest ih =>
    intro i le le' f _ hfail
    have hp : probeOf env cfg i ip = Except.error (f i) := by
      have h0 := hfail 0 (by simp)
      simpa using h0
    cases rest with
    | nil =>
      constructor
      · rw [mainPingLoop, hp]
        simp [mainPingLoop, natsFrom]
      · rw [methodPingLoop, hp]
        simp [methodPingLoop, natsFrom]
    | cons r rs =>
      have hrest := ih (i + 1) (some (f i)) (some (f i)) f (by simp)
        (fun j hj => by
          have h2 := hfail (j + 1) (by
            simp only [List.length_cons] at hj ⊢
            omega)
          have he : i + (j + 1) = i + 1 + j := by omega
          rw [he] at h2
          simpa [List.getD_cons_succ] using h2)
      have hlen : i + 1 + (r :: rs).length - 1 = i + (ip :: r :: rs).length - 1 := by
        simp only [List.length_cons]
        omega
      rw [hlen] at hrest
      constructor
      · rw [mainPingLoop, hp]
        simp only [hrest.1, natsFrom]
      · rw [methodPingLoop, hp]
        simp only [hrest.2, natsFrom]

/-- Claim C3 (amended): given the filtered candidate list, the first
candidate whose probe succeeds short-circuits both variants of
`getPingTime` — later candidates are not probed and the returned value
is exactly the successful probe's latency.  When every candidate fails,
the main variant wraps the last candidate's failure in
`"all ping attempts failed"` while the method variant returns the last
candidate's error unwrapped. -/
theorem c3_first_success (env : PingEnv) (cfg : Config) (ips : List String)
    (hres : resolveIP env.lookup cfg.useIPv4 cfg.useIPv6 = Except.ok ips) :
    (∀ k q, k < ips.length →
      (∀ j, j < k → isOkE (probeOf env cfg j (ips.getD j "")) = false) →
      probeOf env cfg k (ips.getD k "") = Except.ok q →
      mainPingRun env cfg = (Except.ok q, List.range (k + 1)) ∧
      methodPingRun env cfg = (Except.ok q, List.range (k + 1))) ∧
    (∀ f : Nat → GoErr, ips ≠ [] →
      (∀ j, j < ips.length → probeOf env cfg j (ips.getD j "") = Except.error (f j)) →
      mainPingRun env cfg =
        (Except.error (GoErr.allPingFail (f (ips.length - 1))), List.range ips.length) ∧
      methodPingRun env cfg =
        (Except.error (f (ips.length - 1)), List.range ips.length)) := by
  constructor
  · intro k q hk hfail hsucc
    have hloop := pingLoop_success env cfg ips 0 k none none q hk
      (fun j hj => by simpa using hfail j hj) (by simpa using hsucc)
    rw [natsFrom_zero] at hloop
    have hlen : ¬ ips.length = 0 := by omega
    constructor
    · simp only [mainPingRun, hres, if_neg hlen, hloop.1]
    · simp only [methodPingRun, hres, if_neg hlen, hloop.2]
  · intro f hne hfail
    have hloop := pingLoop_allFail env cfg ips 0 none none f hne
      (fun j hj => by simpa using hfail j hj)
    rw [natsFrom_zero] at hloop
    simp only [Nat.zero_add] at hloop
    have hlen : ¬ ips.length = 0 := by
      intro h0
      exact hne (List.eq_nil_of_length_eq_zero h0)
    constructor
    · simp only [mainPingRun, hres, if_neg hlen, hloop.1]
    · simp only [methodPingRun, hres, if_neg hlen, hloop.2]

/-- Witness for C3 (amended): three candidates, the first two probes
fail and the third succeeds with `12.5`; both variants return `12.5`
having probed exactly positions 0, 1, 2. -/
theorem c3_witness :
    resolveIP peThird.lookup cfgEx.useIPv4 cfgEx.useIPv6 =
      Except.ok ["10.0.0.1", "10.0.0.2", "10.0.0.3"] ∧
    mainPingRun peThird cfgEx = (Except.ok (mkRat 25 2), List.range 3) ∧
    methodPingRun peThird cfgEx = (Except.ok (mkRat 25 2), List.range 3) ∧
    (mkRat 25 2 : ℚ) = 12.5 := by
  have h := (c3_first_success peThird cfgEx ["10.0.0.1", "10.0.0.2", "10.0.0.3"]
    (by decide)).1 2 (mkRat 25 2) (by decide)
    (by decide) (by decide)
  refine ⟨by decide, h.1, h.2, ?_⟩
  have hq : (12.5 : ℚ) = Rat.ofScientific 125 true 1 := rfl
  rw [hq, Rat.ofScientific_def]
  norm_num

/-! ## Helper lemmas: the retry loop under total failure -/

/-- If cancellation never fires and every attempt's measure-then-send
stage fails, `n+1` further iterations of the main retry loop return the
last attempt's stored error and perform exactly `n+1` measurements and
`n+1` sleeps. -/
lemma mainReportLoop_allFail (env : RetryEnv) (cfg : Config)
    (hnc : ∀ k, env.cancelled k = false)
    (hfail : ∀ k, attemptOutcome env cfg k ≠ none) :
    ∀ (n attempt : Nat) (le : Option GoErr),
      (mainReportLoop env cfg attempt (n + 1) le).1 = attemptOutcome env cfg (attempt + n) ∧
      (mainReportLoop env cfg attempt (n + 1) le).2.countP isMeasureEv = n + 1 ∧
      (mainReportLoop env cfg attempt (n + 1) le).2.countP isSleepEv = n + 1 := by
  intro n
  induction n with
  | zero =>
    intro attempt le
    have hc := hnc attempt
    cases hping : mainGetPingTime (env.pingEnv attempt) cfg with
    | error e =>
      have hout : attemptOutcome env cfg attempt =
          some (GoErr.pingAttemptFail attempt cfg.maxRetries e) := by
        simp [attemptOutcome, hping]
      refine ⟨?_, ?_, ?_⟩ <;>
        simp [mainReportLoop, hc, hping, hout, isMeasureEv, isSleepEv]
    | ok q =>
      cases hsend : (sendReport (env.sendEnv attempt) cfg q).1 with
      | none => exact absurd (by simp [attemptOutcome, hping, hsend]) (hfail attempt)
      | some e =>
        have hout : attemptOutcome env cfg attempt =
            some (GoErr.reportAttemptFail attempt cfg.maxRetries e) := by
          simp [attemptOutcome, hping, hsend]
        refine ⟨?_, ?_, ?_⟩ <;>
          simp [mainReportLoop, hc, hping, hsend, hout, isMeasureEv, isSleepEv]
  | succ n ih =>
    intro attempt le
    have hc := hnc attempt
    have hidx : attempt + 1 + n = attempt + (n + 1) := by omega
    cases hping : mainGetPingTime (env.pingEnv attempt) cfg with
    | error e =>
      have ihr := ih (attempt + 1) (some (GoErr.pingAttemptFail attempt cfg.maxRetries e))
      rw [hidx] at ihr
      rw [mainReportLoop]
      refine ⟨?_, ?_, ?_⟩ <;>
        simp [hc, hping, ihr.1, ihr.2.1, ihr.2.2, isMeasureEv, isSleepEv]
    | ok q =>
      cases hsend : (sendReport (env.sendEnv attempt) cfg q).1 with
      | none => exact absurd (by simp [attemptOutcome, hping, hsend]) (hfail attempt)
      | some e =>
        have ihr := ih (attempt + 1) (some (GoErr.reportAttemptFail attempt cfg.maxRetries e))
        rw [hidx] at ihr
        rw [mainReportLoop]
        refine ⟨?_, ?_, ?_⟩ <;>
          simp [hc, hping, hsend, ihr.1, ihr.2.1, ihr.2.2, isMeasureEv, isSleepEv]

/-- Claim C1 (amended): with a positive retry budget, no cancellation
and a failure of the measure or send stage on every attempt, the main
variant's `reportWithRetry` performs exactly `MaxRetries` measurements,
sleeps the retry delay exactly `MaxRetries` times — after every failed
attempt, including the final one — and returns the last attempt's
stored (wrapped) error. -/
theorem c1_retry_exhaustion (env : RetryEnv) (cfg : Config)
    (hnc : ∀ k, env.cancelled k = false)
    (hfail : ∀ k, attemptOutcome env cfg k ≠ none)
    (hpos : 0 < cfg.maxRetries) :
    (mainReportWithRetry env cfg).1 = attemptOutcome env cfg cfg.maxRetries.toNat ∧
    (mainReportWithRetry env cfg).2.countP isMeasureEv = cfg.maxRetries.toNat ∧
    (mainReportWithRetry env cfg).2.countP isSleepEv = cfg.maxRetries.toNat := by
  obtain ⟨m, hm⟩ : ∃ m, cfg.maxRetries.toNat = m + 1 :=
    ⟨cfg.maxRetries.toNat - 1, by omega⟩
  have h := mainReportLoop_allFail env cfg hnc hfail m 1 none
  have hidx : 1 + m = m + 1 := by omega
  rw [hidx] at h
  unfold mainReportWithRetry
  rw [hm]
  exact h

/-- Witness for C1 (amended): `MaxRetries = 3`, every measurement
fails; exactly three measurements, three sleeps, and the stored error
of attempt 3 are returned. -/
theorem c1_witness :
    (mainReportWithRetry envAllFail cfgEx).1 = attemptOutcome envAllFail cfgEx 3 ∧
    (mainReportWithRetry envAllFail cfgEx).2.countP isMeasureEv = 3 ∧
    (mainReportWithRetry envAllFail cfgEx).2.countP isSleepEv = 3 := by
  have hout : ∀ k, attemptOutcome envAllFail cfgEx k =
      some (GoErr.pingAttemptFail k cfgEx.maxRetries
        (GoErr.allPingFail (GoErr.probeFail "boom"))) := fun k => rfl
  exact c1_retry_exhaustion envAllFail cfgEx (fun k => rfl)
    (fun k => by rw [hout k]; simp) (by decide)

/-! ## Helper lemmas: the report formatting -/

lemma digitChar_ne_dot (d : Nat) : digitChar d ≠ '.' := by
  unfold digitChar
  split <;> decide

/-- The characters after the last dot of `pre ++ "." ++ [a, b]` are
exactly `[a, b]`. -/
lemma fracLen_append (pre : List Char) (a b : Char) (ha : a ≠ '.') (hb : b ≠ '.') :
    ((pre ++ '.' :: [a, b]).reverse.takeWhile (fun c => c != '.')).length = 2 := by
  have ha2 : (a != '.') = true := bne_iff_ne.mpr ha
  have hb2 : (b != '.') = true := bne_iff_ne.mpr hb
  rw [List.reverse_append]
  simp [List.takeWhile, ha2, hb2]

/-- `%.2f` always renders exactly two decimal places. -/
lemma fmt2f_fracLen (q : ℚ) : fracLen (fmt2f q) = 2 := by
  show (((if q.num < 0 then ['-'] else []) ++
      natDigits (round2 (100 * q.num.natAbs) q.den / 100) ++
      '.' :: [digitChar (round2 (100 * q.num.natAbs) q.den % 100 / 10),
              digitChar (round2 (100 * q.num.natAbs) q.den % 100 % 10)]).reverse.takeWhile
      (fun c => c != '.')).length = 2
  exact fracLen_append _ _ _ (digitChar_ne_dot _) (digitChar_ne_dot _)

/-- Claim C7: `sendReport` issues (at most) one GET whose decoded query
parameters are exactly `msg=<status message>`, `ping=<%.2f latency>`
and `status=up` (in `url.Values.Encode`'s sorted key order), issued
precisely when the configured URL parses; it succeeds exactly when the
request was made and the response status is 200; and the latency is
rendered with exactly two decimal places, also for whole numbers
(`7.0` renders as `7.00`). -/
theorem c7_send_report (env : SendEnv) (cfg : Config) (t : ℚ) :
    (sendReport env cfg t).2 =
      (if env.parseOk then
        some { urlBase := cfg.reportURL
               params := [("msg", cfg.statusMessage), ("ping", fmt2f t), ("status", "up")] }
      else none) ∧
    ((sendReport env cfg t).1 = none ↔ env.parseOk = true ∧ env.getResult = Except.ok 200) ∧
    fmt2f 7 = "7.00" ∧
    fracLen (fmt2f t) = 2 := by
  refine ⟨?_, ?_, by decide, fmt2f_fracLen t⟩
  · unfold sendReport
    cases hp : env.parseOk
    · simp
    · cases hg : env.getResult with
      | error e => simp
      | ok code =>
        simp only [if_true]
        split <;> simp
  · unfold sendReport
    cases hp : env.parseOk
    · simp
    · cases hg : env.getResult with
      | error e => simp
      | ok code =>
        by_cases h200 : code = 200
        · subst h200
          simp
        · simp [h200]

/-! ## Helper lemmas: characters of parsed tokens come from the input -/

lemma splitP_sub (p : Char → Bool) :
    ∀ (l part : List Char), part ∈ splitP p l → ∀ c ∈ part, c ∈ l := by
  intro l
  induction l with
  | nil =>
    intro part hp c hc
    simp [splitP] at hp
    subst hp
    simp at hc
  | cons x xs ih =>
    intro part hp c hc
    by_cases hx : p x
    · simp only [splitP, hx, if_true] at hp
      rcases List.mem_cons.mp hp with h1 | h1
      · subst h1; simp at hc
      · exact List.mem_cons_of_mem x (ih part h1 c hc)
    · simp only [splitP, hx, if_false] at hp
      cases hsp : splitP p xs with
      | nil =>
        rw [hsp] at hp
        simp at hp
        subst hp
        simp at hc
        subst hc
        exact List.mem_cons_self _ _
      | cons t ts =>
        rw [hsp] at hp
        rcases List.mem_cons.mp hp with h1 | h1
        · subst h1
          rcases List.mem_cons.mp hc with h2 | h2
          · subst h2; exact List.mem_cons_self c xs
          · exact List.mem_cons_of_mem x
              (ih t (hsp ▸ List.mem_cons_self t ts) c h2)
        · exact List.mem_cons_of_mem x
            (ih part (hsp ▸ List.mem_cons_of_mem t h1) c hc)

lemma fieldsList_sub (cs : List Char) (part : List Char) (hp : part ∈ fieldsList cs) :
    ∀ c ∈ part, c ∈ cs := by
  intro c hc
  exact splitP_sub isGoSpace cs part (List.mem_of_mem_filter hp) c hc

lemma trimSuffixL_sub (cs suf : List Char) : ∀ c ∈ trimSuffixL cs suf, c ∈ cs := by
  unfold trimSuffixL
  split
  · exact fun c hc => List.take_subset _ _ hc
  · exact fun c hc => hc

lemma mem_of_getD (l : List (List Char)) (i : Nat) :
    l.getD i [] ∈ l ∨ l.getD i [] = ([] : List Char) := by
  by_cases h : i < l.length
  · left
    rw [List.getD_eq_getElem _ _ h]
    exact List.getElem_mem h
  · right
    exact List.getD_eq_default _ _ (by omega)

/-! ## Helper lemmas: sign of parsed values -/

lemma parseSign_false (cs : List Char) (hm : '-' ∉ cs) : (parseSign cs).1 = false := by
  cases cs with
  | nil => rfl
  | cons c r =>
    by_cases hc : c = '-'
    · subst hc
      exact absurd (List.mem_cons_self '-' r) hm
    · by_cases hc2 : c = '+' <;> simp [parseSign, hc, hc2]

lemma parseFloatL_nonneg (cs : List Char) (v : ℚ) (hm : '-' ∉ cs)
    (h : parseFloatL cs = some v) : 0 ≤ v := by
  have hsgn : (parseSign cs).1 = false := parseSign_false cs hm
  unfold parseFloatL at h
  simp only [hsgn, Bool.false_eq_true, if_false] at h
  split at h
  · exact absurd h (by simp)
  · split at h
    · rw [Option.some.injEq] at h
      subst h
      exact Rat.mkRat_nonneg (by positivity) _
    · split at h
      · split at h
        · exact absurd h (by simp)
        · rw [Option.some.injEq] at h
          subst h
          split
          · exact Rat.mkRat_nonneg (by positivity) _
          · exact Rat.mkRat_nonneg (by positivity) _
      · exact absurd h (by simp)

lemma parseSpecial_notNeg (cs : List Char) (hm : '-' ∉ cs) (v : GoFloat)
    (h : parseSpecial cs = some v) : v.isNeg = false := by
  unfold parseSpecial at h
  split at h
  · rw [Option.some.injEq] at h
    subst h
    rfl
  · split at h
    · rw [Option.some.injEq] at h
      subst h
      show (parseSign cs).1 = false
      exact parseSign_false cs hm
    · exact absurd h (by simp)

lemma parseFloatFull_notNeg (cs : List Char) (v : GoFloat) (hm : '-' ∉ cs)
    (h : parseFloatFull cs = some v) : v.isNeg = false := by
  unfold parseFloatFull at h
  cases hs : parseSpecial cs with
  | some w =>
    rw [hs, Option.some.injEq] at h
    subst h
    exact parseSpecial_notNeg cs hm _ hs
  | none =>
    rw [hs] at h
    cases hp : parseFloatL cs with
    | none => rw [hp] at h; simp at h
    | some q =>
      rw [hp] at h
      simp only [Option.map_some'] at h
      rw [Option.some.injEq] at h
      subst h
      show decide (q < 0) = false
      exact decide_eq_false (not_lt.mpr (parseFloatL_nonneg cs q hm hp))

lemma slashScanF_notNeg :
    ∀ (parts : List (List Char)) (v : GoFloat),
      (∀ part ∈ parts, '-' ∉ part) → slashScanF parts = some v → v.isNeg = false := by
  intro parts
  induction parts with
  | nil => intro v _ h; simp [slashScanF] at h
  | cons part rest ih =>
    intro v hnm h
    have htail : ∀ p ∈ rest, '-' ∉ p := fun p hp => hnm p (List.mem_cons_of_mem part hp)
    rw [slashScanF] at h
    split at h
    · split at h
      · cases hp : parseFloatFull ((splitP (fun c => c = '/') part).getD 1 []) with
        | some w =>
          rw [hp, Option.some.injEq] at h
          subst h
          refine parseFloatFull_notNeg _ _ ?_ hp
          intro hin
          rcases mem_of_getD (splitP (fun c => c = '/') part) 1 with hmem | hnil
          · exact hnm part (List.mem_cons_self part rest)
              (splitP_sub _ part _ hmem '-' hin)
          · rw [hnil] at hin
            simp at hin
        | none =>
          rw [hp] at h
          exact ih v htail h
      · exact ih v htail h
    · exact ih v htail h

lemma tryRoundTripLineF_notNeg (line : List Char) (v : GoFloat) (hm : '-' ∉ line)
    (h : tryRoundTripLineF line = some v) : v.isNeg = false := by
  unfold tryRoundTripLineF at h
  split at h
  · exact slashScanF_notNeg (fieldsList line) v
      (fun part hp hin => hm (fieldsList_sub line part hp '-' hin)) h
  · exact absurd h (by simp)

lemma avgScanF_notNeg (parts : List (List Char)) (hnm : ∀ part ∈ parts, '-' ∉ part) :
    ∀ (rest : List (List Char)) (i : Nat) (v : GoFloat),
      avgScanF parts rest i = some v → v.isNeg = false := by
  intro rest
  induction rest with
  | nil => intro i v h; simp [avgScanF] at h
  | cons p rs ih =>
    intro i v h
    rw [avgScanF] at h
    split at h
    · cases hp : parseFloatFull (trimSuffixL (parts.getD (i + 2) []) "ms".data) with
      | some w =>
        rw [hp, Option.some.injEq] at h
        subst h
        refine parseFloatFull_notNeg _ _ ?_ hp
        intro hin
        have hin2 := trimSuffixL_sub _ _ '-' hin
        rcases mem_of_getD parts (i + 2) with hmem | hnil
        · exact hnm _ hmem hin2
        · rw [hnil] at hin2
          simp at hin2
      | none =>
        rw [hp] at h
        exact ih (i + 1) v h
    · exact ih (i + 1) v h

lemma tryAverageLineF_notNeg (line : List Char) (v : GoFloat) (hm : '-' ∉ line)
    (h : tryAverageLineF line = some v) : v.isNeg = false := by
  unfold tryAverageLineF at h
  split at h
  · exact avgScanF_notNeg (fieldsList line)
      (fun part hp hin => hm (fieldsList_sub line part hp '-' hin)) _ 0 v h
  · exact absurd h (by simp)

lemma scanLinesF_notNeg (lines : List (List Char))
    (hnm : ∀ line ∈ lines, '-' ∉ line) :
    ∀ (n : Nat) (v : GoFloat), scanLinesF lines n = some v → v.isNeg = false := by
  intro n
  induction n with
  | zero => intro v h; simp [scanLinesF] at h
  | succ m ih =>
    intro v h
    have hline : '-' ∉ lines.getD m [] := by
      rcases mem_of_getD lines m with hmem | hnil
      · exact hnm _ hmem
      · rw [hnil]; simp
    simp only [scanLinesF] at h
    cases h1 : tryRoundTripLineF (lines.getD m []) with
    | some w =>
      rw [h1, Option.some.injEq] at h
      subst h
      exact tryRoundTripLineF_notNeg _ _ hline h1
    | none =>
      rw [h1] at h
      cases h2 : tryAverageLineF (lines.getD m []) with
      | some w =>
        rw [h2, Option.some.injEq] at h
        subst h
        exact tryAverageLineF_notNeg _ _ hline h2
      | none =>
        rw [h2] at h
        exact ih v h

/-- Claim C9 (amended): the parser enforces neither sign nor
finiteness of the value it returns; what holds is that on any input
containing no `-` character — in particular on genuine ping output —
every successfully parsed value is never negative in `float64`
semantics: it is NaN, `+Inf`, or a non-negative finite value.  (The
unrestricted claim is false — see the counterexample — and a
minus-free input can still parse to the non-finite NaN, e.g.
`"Average = NaNms"`.) -/
theorem c9_never_negative (output : String) (v : GoFloat) (hm : '-' ∉ output.data)
    (h : parseSystemPingOutputF output = Except.ok v) : v.isNeg = false := by
  have hlines : ∀ line ∈ linesOf output, '-' ∉ line := by
    intro line hl hin
    exact hm (splitP_sub _ output.data line hl '-' hin)
  unfold parseSystemPingOutputF at h
  cases hs : scanLinesF (linesOf output) (linesOf output).length with
  | some w =>
    rw [hs] at h
    rw [Except.ok.injEq] at h
    subst h
    exact scanLinesF_notNeg (linesOf output) hlines _ w hs
  | none =>
    rw [hs] at h
    exact absurd h (by simp)

/-- Witness for C9 (amended): a minus-free rtt summary parses to the
finite non-negative `2.0`, and the minus-free `"Average = NaNms"`
parses to NaN — in both cases a value that is not negative. -/
theorem c9_witness :
    parseSystemPingOutputF "rtt min/avg/max/mdev = 1.0/2.0/3.0/0.5 ms" =
      Except.ok (GoFloat.finite 2) ∧
    GoFloat.isNeg (GoFloat.finite 2) = false ∧
    parseSystemPingOutputF "Average = NaNms" = Except.ok GoFloat.nan ∧
    GoFloat.isNeg GoFloat.nan = false :=
  ⟨by decide,
    c9_never_negative "rtt min/avg/max/mdev = 1.0/2.0/3.0/0.5 ms" (GoFloat.finite 2)
      (by decide) (by decide),
    by decide,
    c9_never_negative "Average = NaNms" GoFloat.nan (by decide) (by decide)⟩
